import Mathlib

/-! NFT-Ascent auction marketplace: verification of the spec against the code.

The repository is a browser client (React + ethers) for an auction
marketplace contract deployed on Arbitrum Stylus.  The client sources are
present (`useMarketplace.ts`, `WalletConnect.tsx` / `AuctionCard`,
`CreateAuction.tsx`, `utils` with `parseEther` / `isAuctionEnded`,
`contracts.ts` with the ABI); the marketplace contract itself (`lib.rs`) is
only documented (README, ABI), not shipped.  Client-side logic below is
embedded directly from the TypeScript source; contract-level behaviour is
modelled from the spec, with each such definition marked
`Modelled from the spec:` in its doc comment.

Conventions: accounts, token ids and wei amounts are `Nat`; the zero
address (the contract's "no bidder" sentinel, compared against
`0x0000...0000` in `AuctionCard`) is `0`.  Client-side numeric values
(JavaScript `Number`) are `Rat` except where the claim is specifically
about binary64 rounding, where doubles are modelled exactly.
-/

/-- Modelled from the spec (the marketplace contract is not in the sources):
auction status, `status ∈ {Active, Canceled, Settled}`. -/
inductive Status where
  | Active : Status
  | Canceled : Status
  | Settled : Status
deriving DecidableEq, Repr, Fintype

/-- Modelled from the spec: an auction record.  Field names follow the
contract ABI in `config/contracts.ts` (`getAuction` outputs), with `status`
the three-valued lifecycle state of the spec's data model; `currentBidder = 0`
is the "no bidder yet" sentinel. -/
structure Auction where
  nftContract : Nat
  tokenId : Nat
  seller : Nat
  reservePrice : Nat
  currentBid : Nat
  currentBidder : Nat
  endTime : Nat
  status : Status
deriving DecidableEq, Repr

/-- Modelled from the spec: the marketplace's persistent state: a mapping
from auction id to auction record, per-account withdrawable balances
(EscrowLedger), the next auction id, the configured fee rate in basis
points, and the platform account. -/
structure Registry where
  auctions : Nat → Option Auction
  nextAuctionId : Nat
  balances : Nat → Nat
  feeRateBps : Nat
  platform : Nat

/-- Modelled from the spec: the error taxonomy of the contract surface. -/
inductive MarketError where
  | AuctionNotFound : MarketError
  | AuctionNotActive : MarketError
  | AuctionExpired : MarketError
  | BidTooLow : MarketError
  | AuctionNotYetEnded : MarketError
  | NotAssetOwner : MarketError
  | AssetNotApproved : MarketError
  | InvalidReservePrice : MarketError
  | InvalidDuration : MarketError
  | BidAlreadyPlaced : MarketError
  | NotSeller : MarketError
deriving DecidableEq, Repr

/-- Pointwise map update, used for the auction and balance mappings. -/
def setAuction (f : Nat → Option Auction) (i : Nat) (a : Auction) :
    Nat → Option Auction :=
  fun j => if j = i then some a else f j

/-- Modelled from the spec: `EscrowLedger.credit(account, amount)` adds
`amount` to the account's balance. -/
def credit (bal : Nat → Nat) (account amount : Nat) : Nat → Nat :=
  fun j => if j = account then bal j + amount else bal j

/-- Documented maximum fee rate: 10% = 1000 basis points. -/
def MAX_FEE_BPS : Nat := 1000

/-- Modelled from the spec: minimum auction duration (1 second). -/
def MIN_DURATION : Nat := 1

/-- Modelled from the spec: maximum auction duration (30 days). -/
def MAX_DURATION : Nat := 2592000

namespace FeeSchedule

/-- Modelled from the spec (the FeeSchedule lives in the absent contract):
`split(gross) -> (net, fee)` with `fee = floor(gross * rate_bps / 10000)`,
`net = gross - fee`.  `Nat` division is floor division. -/
def split (rateBps gross : Nat) : Nat × Nat :=
  let fee := gross * rateBps / 10000
  (gross - fee, fee)

end FeeSchedule

/-- Modelled from the spec: `create_auction`.  Validates ownership,
approval, `reserve_price > 0` and duration bounds (in the order the spec
lists the preconditions), then allocates a fresh id and stores an Active
record with `end_time = now + duration`, `current_bid = 0` and the sentinel
bidder.  The AssetRegistry collaborator is abstracted by the `ownerOf` and
`isApproved` inputs. -/
def create_auction (caller nftContract tokenId reservePrice duration now : Nat)
    (ownerOf : Nat → Nat) (isApproved : Nat → Bool) (r : Registry) :
    Except MarketError (Registry × Nat) :=
  if ownerOf tokenId ≠ caller then .error .NotAssetOwner
  else if ¬ isApproved tokenId then .error .AssetNotApproved
  else if reservePrice = 0 then .error .InvalidReservePrice
  else if duration < MIN_DURATION ∨ MAX_DURATION < duration then
    .error .InvalidDuration
  else
    let a : Auction :=
      { nftContract := nftContract, tokenId := tokenId, seller := caller,
        reservePrice := reservePrice, currentBid := 0, currentBidder := 0,
        endTime := now + duration, status := .Active }
    .ok ({ r with auctions := setAuction r.auctions r.nextAuctionId a,
                  nextAuctionId := r.nextAuctionId + 1 }, r.nextAuctionId)

/-- Modelled from the spec: `place_bid`.  Requires an existing Active
auction, `now < end_time`, `amount > current_bid` and
`amount >= reserve_price`; on success the previous bidder (if any) is
credited their bid in the escrow ledger and the bid fields are updated. -/
def place_bid (caller now amount : Nat) (r : Registry) (id : Nat) :
    Except MarketError Registry :=
  match r.auctions id with
  | none => .error .AuctionNotFound
  | some a =>
    if a.status ≠ .Active then .error .AuctionNotActive
    else if a.endTime ≤ now then .error .AuctionExpired
    else if amount ≤ a.currentBid ∨ amount < a.reservePrice then
      .error .BidTooLow
    else
      let bal := if a.currentBidder = 0 then r.balances
                 else credit r.balances a.currentBidder a.currentBid
      .ok { r with
              auctions := setAuction r.auctions id
                { a with currentBid := amount, currentBidder := caller },
              balances := bal }

/-- Modelled from the spec: `settle_auction`.  Requires an existing Active
auction and `now >= end_time`; the caller is unrestricted (permissionless
settlement).  With no bid the auction transitions to Settled with no funds
movement; with a bid the gross is split by the FeeSchedule, the seller is
credited the net and the platform the fee, and the status becomes Settled.
The NFT transfer to the winner is abstracted away (its failure mode is not
the subject of any claim). -/
def settle_auction (caller now : Nat) (r : Registry) (id : Nat) :
    Except MarketError Registry :=
  match r.auctions id with
  | none => .error .AuctionNotFound
  | some a =>
    if a.status ≠ .Active then .error .AuctionNotActive
    else if now < a.endTime then .error .AuctionNotYetEnded
    else if a.currentBidder = 0 then
      .ok { r with auctions := setAuction r.auctions id
                     { a with status := .Settled } }
    else
      let nf := FeeSchedule.split r.feeRateBps a.currentBid
      .ok { r with
              auctions := setAuction r.auctions id
                { a with status := .Settled },
              balances := credit (credit r.balances a.seller nf.1)
                            r.platform nf.2 }

/-- Modelled from the spec: `cancel_auction`.  Only the seller may cancel,
only while Active, and only when no bid has been placed. -/
def cancel_auction (caller : Nat) (r : Registry) (id : Nat) :
    Except MarketError Registry :=
  match r.auctions id with
  | none => .error .AuctionNotFound
  | some a =>
    if a.status ≠ .Active then .error .AuctionNotActive
    else if a.currentBidder ≠ 0 then .error .BidAlreadyPlaced
    else if caller ≠ a.seller then .error .NotSeller
    else
      .ok { r with auctions := setAuction r.auctions id
                     { a with status := .Canceled } }

/-! Client-side code, embedded from the TypeScript sources. -/

/-- From `src/lib/utils` (`src/unnamed/part_002`):
`isAuctionEnded(endTime) = Date.now() / 1000 > Number(endTime)`.
The current time and the end time are JavaScript numbers; the comparison is
strict greater-than. -/
def isAuctionEnded (now endTime : Rat) : Bool :=
  decide (endTime < now)

/-- From `AuctionCard.handleBid` in `WalletConnect.tsx`:
the client-side validation preceding the `placeBid` call.
`handleBid` returns early (rejecting the bid) iff the entered amount is
missing (`!bidAmount`, the empty input) or
`Number(bidAmount) <= Number(auction.currentBid)`.
Returns `true` iff the early return is taken. -/
def handleBidEarlyReturn (bidAmount : Option Rat) (currentBid : Rat) : Bool :=
  match bidAmount with
  | none => true
  | some a => decide (a ≤ currentBid)

/-- From `AuctionCard` in `WalletConnect.tsx`:
`minBid = currentBid > 0 ? (currentBid * 1.05).toFixed(4) : reservePrice`.
The display-only rounding of `toFixed(4)` is not modelled; the value is the
5%-increment figure shown in the input placeholder and helper text. -/
def minBid (currentBid reservePrice : Rat) : Rat :=
  if 0 < currentBid then currentBid * (105 / 100) else reservePrice

/-- From `AuctionCard` in `WalletConnect.tsx`: the settle control is
rendered only under `isEnded && (isOwner || isHighestBidder)`. -/
def showSettleButton (isEnded isOwner isHighestBidder : Bool) : Bool :=
  isEnded && (isOwner || isHighestBidder)

/-- The `getAuction` query result, as declared in the marketplace ABI in
`config/contracts.ts` and consumed by `useMarketplace.getAuction`: eight
fields, of which the only lifecycle information is the Boolean `settled`. -/
structure ChainAuction where
  nftContract : Nat
  tokenId : Nat
  seller : Nat
  reservePrice : Nat
  currentBid : Nat
  currentBidder : Nat
  endTime : Nat
  settled : Bool
deriving DecidableEq, Repr

/-- From `useMarketplace.getActiveAuctions`: reads `getNextAuctionId()`
(`none` models the RPC call throwing), then loops `i` from `1` while
`i < nextAuctionId`; each iteration fetches `getAuction(i)` and
`isAuctionActive(i)` inside a `try` whose `catch` skips the id (`none`
models either call throwing); auctions with `isActive` true are pushed in
loop order.  If the enumeration itself fails the function returns `[]`. -/
def getActiveAuctions (next : Option Nat) (getA : Nat → Option ChainAuction)
    (isAct : Nat → Option Bool) : List (Nat × ChainAuction) :=
  match next with
  | none => []
  | some n =>
    (List.range' 1 (n - 1)).filterMap fun i =>
      match getA i, isAct i with
      | some a, some b => if b then some (i, a) else none
      | _, _ => none

/-! Auxiliary definitions: success test, concrete scenario states, and an
exact model of IEEE-754 binary64 values for the `parseEther` claim. -/

/-- `true` iff an `Except` result is a success. -/
def isOk {ε α : Type} : Except ε α → Bool
  | .ok _ => true
  | .error _ => false

/-- The spec's concrete scenario: an Active auction with reserve 100 whose
current (winning) bid is 150 by bidder 3; seller is account 2. -/
def scnAuction : Auction :=
  { nftContract := 7, tokenId := 1, seller := 2, reservePrice := 100,
    currentBid := 150, currentBidder := 3, endTime := 1000,
    status := .Active }

/-- The scenario registry: auction 1 is `scnAuction`, fee rate 500 bps,
platform account 9, all balances zero. -/
def scnRegistry : Registry :=
  { auctions := fun i => if i = 1 then some scnAuction else none,
    nextAuctionId := 2, balances := fun _ => 0,
    feeRateBps := 500, platform := 9 }

/-- The registry after settling the scenario auction at `now = 1000`:
status Settled, seller credited `150 - 150*500/10000 = 143`, platform
credited `7`. -/
def scnSettled : Registry :=
  { scnRegistry with
      auctions := setAuction scnRegistry.auctions 1
        { scnAuction with status := .Settled },
      balances := credit (credit scnRegistry.balances 2 143) 9 7 }

/-- A bid-free Active auction (sentinel bidder), for the cancellation
path. -/
def noBidAuction : Auction :=
  { nftContract := 7, tokenId := 2, seller := 2, reservePrice := 100,
    currentBid := 0, currentBidder := 0, endTime := 1000,
    status := .Active }

/-- A registry holding only `noBidAuction` as auction 1. -/
def noBidRegistry : Registry :=
  { auctions := fun i => if i = 1 then some noBidAuction else none,
    nextAuctionId := 2, balances := fun _ => 0,
    feeRateBps := 500, platform := 9 }

/-- `noBidRegistry` after the seller cancels auction 1. -/
def noBidCanceled : Registry :=
  { noBidRegistry with
      auctions := setAuction noBidRegistry.auctions 1
        { noBidAuction with status := .Canceled } }

/-- A registry whose auction 1 is already Canceled. -/
def canceledRegistry : Registry :=
  { auctions := fun i =>
      if i = 1 then some { noBidAuction with status := .Canceled } else none,
    nextAuctionId := 2, balances := fun _ => 0,
    feeRateBps := 500, platform := 9 }

/-- A finite IEEE-754 binary64 value: a rational of the form `m * 2^e`
with `|m| < 2^53` and `e` an integer (written as multiplication or
division by a power of two to stay within `Nat` exponents).  Exponent
range limits are irrelevant at the magnitudes of the claims and are not
modelled. -/
def IsDouble (d : Rat) : Prop :=
  ∃ (m : ℤ) (k : ℕ), m.natAbs < 2 ^ 53 ∧
    (d = (m : Rat) * 2 ^ k ∨ d = (m : Rat) / 2 ^ k)

/-- Round-to-nearest: `d` is a binary64 value at minimal distance from the
exact value `x`.  This is the rounding performed by JavaScript both when a
decimal literal is parsed by `Number(...)` and after each arithmetic
operation. -/
def RoundsTo (x d : Rat) : Prop :=
  IsDouble d ∧ ∀ e : Rat, IsDouble e → |x - d| ≤ |x - e|

/-- From `parseEther` in `src/lib/utils` (`src/unnamed/part_002`):
`BigInt(Math.floor(Number(value) * 1e18))`.  For a string denoting the
exact rational `q`, the result `r` is obtained by rounding `q` to a double
`d₁`, rounding the exact product `d₁ * 10^18` to a double `d₂` (the `*`
of JavaScript), and taking the floor (exact on doubles, and `BigInt` is
exact). -/
def JsParseEther (q : Rat) (r : ℤ) : Prop :=
  ∃ d₁ d₂ : Rat, RoundsTo q d₁ ∧ RoundsTo (d₁ * 10 ^ 18) d₂ ∧ r = ⌊d₂⌋

/-! Theorems settling the claims. -/

/-- C1: for every gross sale amount `G` and configured rate
`rate_bps ∈ [0, MAX_FEE_BPS]`, the fee split returns
`fee = floor(G * rate_bps / 10000)` and `net = G - fee`, with
`net + fee = G`; and a settlement that pays out a winning bid `G` credits
the seller exactly `net` and the platform exactly `fee`, so settlement
accounting neither creates nor destroys value. -/
theorem fee_split_conserves_value (G rate : Nat) (hrate : rate ≤ MAX_FEE_BPS) :
    ((FeeSchedule.split rate G).2 = G * rate / 10000 ∧
     (FeeSchedule.split rate G).1 = G - G * rate / 10000 ∧
     (FeeSchedule.split rate G).1 + (FeeSchedule.split rate G).2 = G) ∧
    (∀ caller now r id a r',
       r.feeRateBps = rate → r.auctions id = some a → a.currentBid = G →
       a.currentBidder ≠ 0 → a.seller ≠ r.platform →
       settle_auction caller now r id = .ok r' →
       r'.balances a.seller
         = r.balances a.seller + (FeeSchedule.split rate G).1 ∧
       r'.balances r.platform
         = r.balances r.platform + (FeeSchedule.split rate G).2) := by
  have hfee : G * rate / 10000 ≤ G := by
    calc G * rate / 10000 ≤ G * 10000 / 10000 :=
          Nat.div_le_div_right (Nat.mul_le_mul_left G
            (le_trans hrate (by norm_num [MAX_FEE_BPS])))
      _ = G := Nat.mul_div_cancel G (by norm_num)
  refine ⟨⟨rfl, rfl, Nat.sub_add_cancel hfee⟩, ?_⟩
  intro caller now r id a r' hr ha hbid hbidder hsp h
  unfold settle_auction at h
  rw [ha] at h
  dsimp only at h
  split_ifs at h with h1 h2
  injection h with h'
  subst h'
  constructor
  · simp [credit, hsp, Ne.symm hsp, hr, hbid]
  · simp [credit, hsp, Ne.symm hsp, hr, hbid]

/-- C1 witness: the split at gross 150 and rate 500 bps satisfies the fee
formula and conserves value. -/
theorem fee_split_conserves_value_witness :
    (500 ≤ MAX_FEE_BPS) ∧
    (FeeSchedule.split 500 150).2 = 150 * 500 / 10000 ∧
    (FeeSchedule.split 500 150).1 + (FeeSchedule.split 500 150).2 = 150 := by
  refine ⟨by decide, ?_, ?_⟩
  · exact (fee_split_conserves_value 150 500 (by decide)).1.1
  · exact (fee_split_conserves_value 150 500 (by decide)).1.2.2

/-- C2 counterexample: settling the spec's scenario (winning bid 150, rate
500 bps) credits the seller 143, not the 142 the claim states:
`net = 150 - floor(150*500/10000) = 150 - 7 = 143`. -/
theorem settle_scenario_not_142 :
    settle_auction 4 1000 scnRegistry 1 = .ok scnSettled ∧
    scnSettled.balances 2 = 143 ∧ scnSettled.balances 9 = 7 ∧
    (143 : Nat) ≠ 142 :=
  ⟨rfl, rfl, rfl, by decide⟩

/-- C2 amended: settling the scenario auction (winning bid 150, rate 500
bps) credits the seller exactly 143 and the platform exactly 7, and the
two credits sum to the winning bid. -/
theorem settle_scenario_credits_143 :
    settle_auction 4 1000 scnRegistry 1 = .ok scnSettled ∧
    scnSettled.balances 2 = 143 ∧ scnSettled.balances 9 = 7 ∧
    143 + 7 = scnAuction.currentBid :=
  ⟨rfl, rfl, rfl, rfl⟩

/-- C3 counterexample: a first bid of 50 on an auction with no bid yet
(`currentBid = 0`) and reserve price 100 is below the reserve, yet the
client's `handleBid` validation does not return early: the reserve-price
condition is never checked client-side. -/
theorem client_reserve_not_checked :
    handleBidEarlyReturn (some 50) 0 = false ∧ (50 : Rat) < 100 := by
  constructor
  · decide
  · norm_num

/-- C3 amended: a bid not exceeding `current_bid`, or below
`reserve_price`, is rejected by the contract's `place_bid` with `BidTooLow`
and mutates no state; the client's `handleBid`, however, returns before
calling `placeBid` exactly when the entered amount is missing or does not
exceed `current_bid` — a first bid below the reserve is not stopped
client-side but only by the contract. -/
theorem low_bid_rejection (caller now amount : Nat) (r : Registry) (id : Nat)
    (a : Auction) (ha : r.auctions id = some a) (hact : a.status = .Active)
    (ht : now < a.endTime)
    (hlow : amount ≤ a.currentBid ∨ amount < a.reservePrice) :
    place_bid caller now amount r id = .error .BidTooLow ∧
    (∀ (b c : Rat), handleBidEarlyReturn (some b) c = true ↔ b ≤ c) ∧
    (∀ c : Rat, handleBidEarlyReturn none c = true) := by
  refine ⟨?_, ?_, fun c => rfl⟩
  · unfold place_bid
    rw [ha]
    dsimp only
    rw [if_neg (by simp [hact]), if_neg (by omega), if_pos hlow]
  · intro b c
    simp [handleBidEarlyReturn]

/-- C3 witness: a bid of 150 equal to the scenario's current bid is
rejected with `BidTooLow`, and the client early-returns on 1 ≤ 2. -/
theorem low_bid_rejection_witness :
    place_bid 5 500 150 scnRegistry 1 = .error .BidTooLow ∧
    handleBidEarlyReturn (some 1) 2 = true := by
  have h := low_bid_rejection 5 500 150 scnRegistry 1 scnAuction rfl rfl
    (by decide) (Or.inl (by decide))
  exact ⟨h.1, (h.2.1 1 2).mpr (by norm_num)⟩

/-- C4 counterexample: at `now = end_time` the client's `isAuctionEnded`
still reports the auction as not ended, although `now >= end_time` holds —
`Date.now()/1000 > endTime` is strict, so the program does not treat an
auction as ended precisely from `end_time` onward. -/
theorem ended_at_end_time_false :
    isAuctionEnded 100 100 = false ∧ ((100 : Rat) ≤ 100) :=
  ⟨by decide, le_refl _⟩

/-- C4 amended: contract settlement requires `now >= end_time` — strictly
before `end_time` it fails with `AuctionNotYetEnded`, and on a non-Active
auction with `AuctionNotActive` — while the client treats an auction as
ended (and offers settlement) precisely when `now` is strictly greater
than `end_time`, so at `now = end_time` the contract already allows
settlement the client does not yet offer. -/
theorem settlement_window :
    (∀ now e : Rat, isAuctionEnded now e = true ↔ e < now) ∧
    (∀ caller now r id a, r.auctions id = some a → a.status = .Active →
       now < a.endTime →
       settle_auction caller now r id = .error .AuctionNotYetEnded) ∧
    (∀ caller now r id a, r.auctions id = some a → a.status ≠ .Active →
       settle_auction caller now r id = .error .AuctionNotActive) := by
  refine ⟨?_, ?_, ?_⟩
  · intro now e
    simp [isAuctionEnded]
  · intro caller now r id a ha hact ht
    unfold settle_auction
    rw [ha]
    dsimp only
    rw [if_neg (by simp [hact]), if_pos ht]
  · intro caller now r id a ha hact
    unfold settle_auction
    rw [ha]
    dsimp only
    rw [if_pos hact]

/-- C4 witness: strictly after `end_time` the client reports ended;
settling the scenario auction at `now = 500 < 1000` fails with
`AuctionNotYetEnded`; settling an already-canceled auction fails with
`AuctionNotActive`. -/
theorem settlement_window_witness :
    isAuctionEnded 101 100 = true ∧
    settle_auction 4 500 scnRegistry 1 = .error .AuctionNotYetEnded ∧
    settle_auction 4 2000 canceledRegistry 1 = .error .AuctionNotActive := by
  refine ⟨?_, ?_, ?_⟩
  · exact (settlement_window.1 101 100).mpr (by norm_num)
  · exact settlement_window.2.1 4 500 scnRegistry 1 scnAuction rfl rfl
      (by decide)
  · exact settlement_window.2.2 4 2000 canceledRegistry 1
      { noBidAuction with status := .Canceled } rfl (by decide)

/-- C5 counterexample: for an ended auction, an account that is neither
the seller nor the highest bidder is not offered the settle control —
`AuctionCard` renders it only under `isEnded && (isOwner ||
isHighestBidder)`, so the caller-facing layer does restrict settlement. -/
theorem settle_button_restricted :
    showSettleButton true false false = false := by decide

/-- C5 amended: settlement at the contract level is permissionless — for
every caller, `settle_auction` on an ended Active auction succeeds — but
the client renders the settle control only to the seller or the highest
bidder; any other account would have to invoke `settleAuction` outside
the UI. -/
theorem settlement_permissionless_contract_only :
    (∀ caller now r id a, r.auctions id = some a → a.status = .Active →
       a.endTime ≤ now → isOk (settle_auction caller now r id) = true) ∧
    (∀ e : Bool, showSettleButton e false false = false) := by
  constructor
  · intro caller now r id a ha hact ht
    unfold settle_auction
    rw [ha]
    dsimp only
    rw [if_neg (by simp [hact]), if_neg (by omega)]
    by_cases hb : a.currentBidder = 0
    · rw [if_pos hb]; rfl
    · rw [if_neg hb]; rfl
  · intro e
    cases e <;> rfl

/-- C5 witness: account 4 (neither seller 2 nor bidder 3) successfully
settles the ended scenario auction, while the ended-auction settle control
stays hidden from such an account. -/
theorem settlement_permissionless_witness :
    isOk (settle_auction 4 1000 scnRegistry 1) = true ∧
    showSettleButton true false false = false :=
  ⟨settlement_permissionless_contract_only.1 4 1000 scnRegistry 1 scnAuction
     rfl rfl (by decide),
   settlement_permissionless_contract_only.2 true⟩

/-- C6 counterexample: the `getAuction` query result (the ABI's
`ChainAuction`, whose only lifecycle field is the Boolean `settled`)
cannot distinguish the three statuses: no rendering of `Status` into the
view's `settled` flag is injective, so Canceled is not distinguishable
from both Active and Settled in the query result. -/
theorem status_not_injectable_into_view :
    ¬ ∃ f : Status → Bool, Function.Injective
      (fun s => ({ nftContract := 0, tokenId := 0, seller := 0,
                   reservePrice := 0, currentBid := 0, currentBidder := 0,
                   endTime := 0, settled := f s } : ChainAuction)) := by
  decide

/-- C6 amended: every auction record carries a status among the three
values Active, Canceled, Settled, and an auction remains stored (hence
queryable) after a terminal settle or cancel transition; the `getAuction`
query result, however, exposes only a Boolean `settled` flag rather than
the three-valued status. -/
theorem status_three_valued_persistent :
    (∀ s : Status, s = .Active ∨ s = .Canceled ∨ s = .Settled) ∧
    (∀ caller now r id r', settle_auction caller now r id = .ok r' →
       (r'.auctions id).isSome = true) ∧
    (∀ caller r id r', cancel_auction caller r id = .ok r' →
       (r'.auctions id).isSome = true) := by
  refine ⟨fun s => by cases s <;> simp, ?_, ?_⟩
  · intro caller now r id r' h
    unfold settle_auction at h
    cases ha : r.auctions id <;> rw [ha] at h
    · exact absurd h (by simp)
    · dsimp only at h
      split_ifs at h with h1 h2 h3 <;>
        (injection h with h'; subst h'; simp [setAuction])
  · intro caller r id r' h
    unfold cancel_auction at h
    cases ha : r.auctions id <;> rw [ha] at h
    · exact absurd h (by simp)
    · dsimp only at h
      split_ifs at h with h1 h2 h3
      injection h with h'
      subst h'
      simp [setAuction]

/-- C6 witness: Canceled is one of the three status values; the settled
scenario auction and the canceled no-bid auction both remain queryable. -/
theorem status_three_valued_persistent_witness :
    (Status.Canceled = .Active ∨ Status.Canceled = .Canceled ∨
       Status.Canceled = .Settled) ∧
    (scnSettled.auctions 1).isSome = true ∧
    (noBidCanceled.auctions 1).isSome = true :=
  ⟨status_three_valued_persistent.1 .Canceled,
   status_three_valued_persistent.2.1 4 1000 scnRegistry 1 scnSettled rfl,
   status_three_valued_persistent.2.2 2 noBidRegistry 1 noBidCanceled rfl⟩

/-- C7: a `create_auction` request with `reserve_price = 0` is never a
success (no auction is created and, the model being functional, no state
is mutated), and when the remaining preconditions hold (caller owns the
token and the marketplace is approved) the error is precisely
`InvalidReservePrice`. -/
theorem create_auction_zero_reserve_rejected
    (caller nftC tokenId duration now : Nat) (ownerOf : Nat → Nat)
    (isApproved : Nat → Bool) (r : Registry) :
    isOk (create_auction caller nftC tokenId 0 duration now ownerOf isApproved
      r) = false ∧
    (ownerOf tokenId = caller → isApproved tokenId = true →
      create_auction caller nftC tokenId 0 duration now ownerOf isApproved r
        = .error .InvalidReservePrice) := by
  constructor
  · unfold create_auction
    split_ifs with h1 h2 h3 h4
    any_goals rfl
    exact absurd rfl h3
  · intro how happ
    unfold create_auction
    rw [if_neg (by simp [how]), if_neg (by simp [happ]), if_pos rfl]

/-- C7 witness: a zero-reserve request by the owner of an approved token
is rejected with `InvalidReservePrice`. -/
theorem create_auction_zero_reserve_witness :
    isOk (create_auction 1 7 5 0 3600 0 (fun _ => 1) (fun _ => true)
      scnRegistry) = false ∧
    create_auction 1 7 5 0 3600 0 (fun _ => 1) (fun _ => true) scnRegistry
      = .error .InvalidReservePrice :=
  ⟨(create_auction_zero_reserve_rejected 1 7 5 3600 0 (fun _ => 1)
      (fun _ => true) scnRegistry).1,
   (create_auction_zero_reserve_rejected 1 7 5 3600 0 (fun _ => 1)
      (fun _ => true) scnRegistry).2 rfl rfl⟩

/-- C8: the client validation preceding `placeBid` accepts any amount
strictly greater than the current bid — even one below the 5% increment
figure `minBid = currentBid * 1.05`, which is presentation only (it is the
placeholder and helper-text value, never consulted by the validation). -/
theorem strict_increase_passes_validation (a c reserve : Rat)
    (hgt : c < a) (hpos : 0 < c) (hlt : a < minBid c reserve) :
    handleBidEarlyReturn (some a) c = false ∧
    minBid c reserve = c * (105 / 100) := by
  constructor
  · simp [handleBidEarlyReturn, not_le.mpr hgt]
  · simp [minBid, hpos]

/-- C8 witness: a bid of 1.01 over a current bid of 1 is below the 5%
figure 1.05 yet passes the client validation. -/
theorem strict_increase_passes_validation_witness :
    ((1 : Rat) < 101 / 100) ∧ ((0 : Rat) < 1) ∧
    ((101 / 100 : Rat) < minBid 1 1) ∧
    handleBidEarlyReturn (some (101 / 100)) 1 = false := by
  have h1 : (1 : Rat) < 101 / 100 := by norm_num
  have h2 : (0 : Rat) < 1 := by norm_num
  have h3 : (101 / 100 : Rat) < minBid 1 1 := by norm_num [minBid]
  exact ⟨h1, h2, h3,
    (strict_increase_passes_validation (101 / 100) 1 1 h1 h2 h3).1⟩

/-- 1 is a binary64 value. -/
theorem isDouble_one : IsDouble 1 :=
  ⟨1, 0, by norm_num, Or.inl (by norm_num)⟩

/-- 10^18 is a binary64 value: `5^18 < 2^53` scaled by `2^18`. -/
theorem isDouble_1e18 : IsDouble (10 ^ 18) :=
  ⟨5 ^ 18, 18, by norm_num, Or.inl (by norm_num)⟩

/-- A value already representable rounds to itself. -/
theorem roundsTo_self {x : Rat} (h : IsDouble x) : RoundsTo x x :=
  ⟨h, fun e _ => by simp⟩

/-- Rounding a representable value can only return that value. -/
theorem roundsTo_eq {x d : Rat} (hx : IsDouble x) (h : RoundsTo x d) :
    d = x := by
  have h0 := h.2 x hx
  rw [sub_self, abs_zero] at h0
  have h1 : |x - d| = 0 := le_antisymm h0 (abs_nonneg _)
  have h2 : x - d = 0 := abs_eq_zero.mp h1
  linarith

/-- No binary64 value lies strictly between 1 and `1 + 2^-52` (the unit
in the last place of 1). -/
theorem isDouble_gap (d : Rat) (h : IsDouble d) :
    d ≤ 1 ∨ 1 + 1 / 2 ^ 52 ≤ d := by
  obtain ⟨m, k, hm, hd | hd⟩ := h
  · rcases le_or_lt d 1 with h1 | h1
    · exact Or.inl h1
    · right
      have hz : d = ((m * 2 ^ k : ℤ) : Rat) := by rw [hd]; push_cast; ring
      have hlt : (1 : ℤ) < m * 2 ^ k := by
        rw [hz] at h1; exact_mod_cast h1
      have h3 : (2 : ℤ) ≤ m * 2 ^ k := hlt
      have h4 : (2 : Rat) ≤ ((m * 2 ^ k : ℤ) : Rat) := by exact_mod_cast h3
      rw [hz]
      calc (1 : Rat) + 1 / 2 ^ 52 ≤ 2 := by norm_num
        _ ≤ _ := h4
  · rcases le_or_lt d 1 with h1 | h1
    · exact Or.inl h1
    · right
      rcases le_or_lt k 52 with hk | hk
      · have hpow : (0 : Rat) < 2 ^ k := by positivity
        have h2 : (2 : Rat) ^ k < m := by
          rw [hd] at h1
          exact (one_lt_div hpow).mp h1
        have h2i : (2 : ℤ) ^ k < m := by exact_mod_cast h2
        have h4 : ((2 : ℤ) ^ k + 1 : ℤ) ≤ (m : ℤ) := h2i
        have h5 : ((2 : Rat) ^ k + 1) / 2 ^ k ≤ (m : Rat) / 2 ^ k := by
          apply (div_le_div_iff_of_pos_right hpow).mpr
          exact_mod_cast h4
        have h6 : ((2 : Rat) ^ k + 1) / 2 ^ k = 1 + 1 / 2 ^ k := by
          field_simp
        have h7 : (1 : Rat) + 1 / 2 ^ 52 ≤ 1 + 1 / 2 ^ k := by
          have ha : (2 : Rat) ^ k ≤ 2 ^ 52 :=
            pow_le_pow_right₀ (by norm_num) hk
          have hb := one_div_le_one_div_of_le hpow ha
          linarith
        rw [hd]
        calc (1 : Rat) + 1 / 2 ^ 52 ≤ 1 + 1 / 2 ^ k := h7
          _ = ((2 : Rat) ^ k + 1) / 2 ^ k := h6.symm
          _ ≤ (m : Rat) / 2 ^ k := h5
      · exfalso
        have hlt1 : d < 1 := by
          rw [hd, div_lt_one (by positivity)]
          have ha : (m : Rat) ≤ (m.natAbs : ℤ) := by
            exact_mod_cast Int.le_natAbs
          have hb : ((m.natAbs : ℤ) : Rat) < ((2 : Rat) ^ 53) := by
            exact_mod_cast hm
          have hc : ((2 : Rat) ^ 53) ≤ 2 ^ k :=
            pow_le_pow_right₀ (by norm_num) (by omega)
          linarith
        linarith

/-- The exact decimal 1.000000000000000001 is within half an ulp of 1, so
it rounds to the double 1. -/
theorem roundsTo_one_plus_eps : RoundsTo (1 + 1 / 10 ^ 18) 1 := by
  refine ⟨isDouble_one, ?_⟩
  intro e he
  have h1 : |(1 + 1 / 10 ^ 18 : Rat) - 1| = 1 / 10 ^ 18 := by
    rw [show (1 + 1 / 10 ^ 18 : Rat) - 1 = 1 / 10 ^ 18 by ring]
    exact abs_of_pos (by norm_num)
  rw [h1]
  rcases isDouble_gap e he with h | h
  · calc (1 / 10 ^ 18 : Rat) ≤ (1 + 1 / 10 ^ 18) - e := by linarith
      _ ≤ |(1 + 1 / 10 ^ 18) - e| := le_abs_self _
  · have hgap : (2 : Rat) / 10 ^ 18 ≤ 1 / 2 ^ 52 := by norm_num
    calc (1 / 10 ^ 18 : Rat) ≤ e - (1 + 1 / 10 ^ 18) := by linarith
      _ ≤ |e - (1 + 1 / 10 ^ 18)| := le_abs_self _
      _ = |(1 + 1 / 10 ^ 18) - e| := abs_sub_comm _ _

/-- C9 counterexample: `parseEther` does not convert every decimal string
exactly.  For the string denoting `1 + 10^-18` (i.e.
"1.000000000000000001"), `Number(value)` rounds to the double 1, the
product with `1e18` is exactly `10^18`, and the deposit is `10^18` wei —
but the exact conversion `floor(value * 10^18)` is `10^18 + 1`. -/
theorem parseEther_rounding_error :
    ∃ (q : Rat) (r : ℤ), JsParseEther q r ∧ r ≠ ⌊q * 10 ^ 18⌋ := by
  refine ⟨1 + 1 / 10 ^ 18, 10 ^ 18,
    ⟨1, 10 ^ 18, roundsTo_one_plus_eps, ?_, ?_⟩, ?_⟩
  · rw [one_mul]
    exact roundsTo_self isDouble_1e18
  · rw [show ((10 : Rat) ^ 18) = ((10 ^ 18 : ℤ) : Rat) by push_cast; ring,
      Int.floor_intCast]
  · rw [show ((1 : Rat) + 1 / 10 ^ 18) * 10 ^ 18 = ((10 ^ 18 + 1 : ℤ) : Rat)
      by push_cast; field_simp; norm_num, Int.floor_intCast]
    norm_num

/-- C9 amended: the deposit attached to `placeBid` is
`BigInt(Math.floor(Number(value) * 1e18))`, which equals the exact
`floor(amount * 10^18)` whenever the amount and the product
`amount * 10^18` are exactly representable as binary64 — but not for
every decimal string (see the counterexample). -/
theorem parseEther_exact_on_doubles (q : Rat) (r : ℤ)
    (h1 : IsDouble q) (h2 : IsDouble (q * 10 ^ 18))
    (h : JsParseEther q r) : r = ⌊q * 10 ^ 18⌋ := by
  obtain ⟨d₁, d₂, hr1, hr2, hfl⟩ := h
  have e1 : d₁ = q := roundsTo_eq h1 hr1
  subst e1
  have e2 : d₂ = d₁ * 10 ^ 18 := roundsTo_eq h2 hr2
  rw [hfl, e2]

/-- C9 witness: 0.5 ETH is exactly representable and deposits exactly
`5 * 10^17` wei. -/
theorem parseEther_exact_on_doubles_witness :
    IsDouble (1 / 2 : Rat) ∧ IsDouble ((1 / 2 : Rat) * 10 ^ 18) ∧
    JsParseEther (1 / 2) (5 * 10 ^ 17) ∧
    (5 * 10 ^ 17 : ℤ) = ⌊(1 / 2 : Rat) * 10 ^ 18⌋ := by
  have hq : IsDouble (1 / 2 : Rat) :=
    ⟨1, 1, by norm_num, Or.inr (by norm_num)⟩
  have hp : IsDouble ((1 / 2 : Rat) * 10 ^ 18) := by
    refine ⟨5 ^ 18, 17, by norm_num, Or.inl ?_⟩
    norm_num
  have hj : JsParseEther (1 / 2) (5 * 10 ^ 17) := by
    refine ⟨1 / 2, (1 / 2 : Rat) * 10 ^ 18, roundsTo_self hq,
      roundsTo_self hp, ?_⟩
    rw [show (1 / 2 : Rat) * 10 ^ 18 = ((5 * 10 ^ 17 : ℤ) : Rat)
      by push_cast; norm_num, Int.floor_intCast]
  exact ⟨hq, hp, hj,
    parseEther_exact_on_doubles (1 / 2) (5 * 10 ^ 17) hq hp hj⟩

/-- One iteration of the `getActiveAuctions` loop yields an entry exactly
when both RPC reads succeed and the auction is active. -/
theorem enumStep_eq_some {getA : Nat → Option ChainAuction}
    {isAct : Nat → Option Bool} {j i : Nat} {a : ChainAuction} :
    (match getA j, isAct j with
      | some x, some b => if b then some (j, x) else none
      | _, _ => none) = some (i, a) ↔
      j = i ∧ getA j = some a ∧ isAct j = some true := by
  rcases hg : getA j with _ | x <;> rcases hi : isAct j with _ | b
  · simp
  · simp
  · simp
  · rcases b <;> simp [Prod.ext_iff, and_assoc]

/-- Mapping the id out of a filterMap whose hits carry their own index
gives a sublist of the index list. -/
theorem map_fst_filterMap_sublist {β : Type} (l : List Nat)
    (f : Nat → Option (Nat × β)) (hf : ∀ j p, f j = some p → p.1 = j) :
    List.Sublist ((l.filterMap f).map Prod.fst) l := by
  induction l with
  | nil => simp
  | cons x xs ih =>
    cases hx : f x with
    | none =>
      rw [List.filterMap_cons_none hx]
      exact ih.cons x
    | some p =>
      rw [List.filterMap_cons_some hx, List.map_cons, hf x p hx]
      exact ih.cons₂ x

/-- C10: `getActiveAuctions` returns exactly the auctions whose id lies in
`[1, getNextAuctionId())` and for which both reads succeed with
`isAuctionActive` true, in strictly increasing id order; an id whose
lookup fails is skipped without aborting the enumeration, and a failing
enumeration yields the empty list. -/
theorem getActiveAuctions_enumeration (n : Nat)
    (getA : Nat → Option ChainAuction) (isAct : Nat → Option Bool) :
    getActiveAuctions none getA isAct = [] ∧
    (∀ i a, (i, a) ∈ getActiveAuctions (some n) getA isAct ↔
       1 ≤ i ∧ i < n ∧ getA i = some a ∧ isAct i = some true) ∧
    ((getActiveAuctions (some n) getA isAct).map Prod.fst).Pairwise
      (· < ·) := by
  refine ⟨rfl, ?_, ?_⟩
  · intro i a
    simp only [getActiveAuctions, List.mem_filterMap, List.mem_range'_1]
    constructor
    · rintro ⟨j, ⟨hj1, hj2⟩, hf⟩
      obtain ⟨rfl, hg, hi⟩ := enumStep_eq_some.mp hf
      exact ⟨hj1, by omega, hg, hi⟩
    · rintro ⟨h1, h2, hg, hi⟩
      exact ⟨i, ⟨h1, by omega⟩, enumStep_eq_some.mpr ⟨rfl, hg, hi⟩⟩
  · refine (List.pairwise_lt_range' 1 (n - 1)).sublist ?_
    refine map_fst_filterMap_sublist _ _ ?_
    intro j p hf
    obtain ⟨i, a⟩ := p
    exact (enumStep_eq_some.mp hf).1.symm
